import Mathlib

/-!
# Verification of th-helpers

Shallow embedding of the two source files of the repository:

* `scripts/generate_lab_events.py` — the Labs event scraper: listing
  parser, date normalization, snapshot cache and merge-scrape orchestrator.
* `src/th_helpers/components/result_rate.py` — the result-rate formula
  table, the rate calculation and the label helper.

Modelling conventions:

* Python strings are modelled by `String` (a sequence of Unicode code
  points, matching CPython `str` semantics for `find`, slicing and
  comparison).  Helper functions (`pyFind`, `pySliceTo`, …) reproduce the
  exact CPython behaviour, including negative-index slicing.
* `datetime.strptime(s, "%B %d, %Y")` is modelled by `strptimeBdY`,
  reproducing CPython `_strptime`: the format is compiled to the regular
  expression `(month)\s+(3[01]|[12]\d|0[1-9]|[1-9]| [1-9]),\s+(\d\d\d\d)`
  matched against the whole input (case-insensitive month, greedy
  whitespace with backtracking), followed by the `datetime` constructor's
  day-of-month and year-range validation.  The ASCII fragment of the
  Unicode whitespace/digit classes is modelled; the claims below never
  depend on non-ASCII whitespace or digits.
* Parsed HTML is modelled from the point of the element tree
  (`Node`): BeautifulSoup's `select_one('ul.grid')`, `find_all`
  (with `recursive=False`), `has_attr`, and `get_text(strip=True)` are
  embedded as structurally recursive tree functions.
* Exceptions (`ValueError`) become `Except String` / `Option` results;
  the caught-exception branches of the source become the `none` branches.
* Python numbers in the result-rate module are modelled by `ℚ`
  (the source only performs `+`, `/`, `round(·, 1)` on them);
  `round(x, 1)` is modelled by round-half-to-even at one decimal,
  CPython's rounding mode.
* Network fetches are modelled by an oracle argument
  `oracle : String → String → Option Nat` standing for
  `fetch_division_player_count` (which converts every fetch/parse failure
  into `None`); file contents are modelled by the list of event records
  they deserialize to.
-/

namespace ThHelpers

/-! ## Python string primitives (code-point semantics) -/

/-- The ASCII whitespace characters of Python's `str.strip` and of the
regex class `\s` (the further Unicode whitespace characters are not
modelled; no claim depends on them). -/
def pyIsSpace (c : Char) : Bool :=
  c = ' ' || c = '\t' || c = '\n' || c = '\r' || c = '\x0b' || c = '\x0c'

/-- Python `str.strip()` on a character list. -/
def pyStripList (cs : List Char) : List Char :=
  ((cs.dropWhile pyIsSpace).reverse.dropWhile pyIsSpace).reverse

/-- Python `str.strip()`. -/
def pyStrip (s : String) : String := ⟨pyStripList s.data⟩

/-- Helper for `pyFind`: index of the first occurrence of `c`, `-1` if absent. -/
def pyFindAux (c : Char) : List Char → Int
  | [] => -1
  | a :: as =>
    if a = c then 0
    else
      let r := pyFindAux c as
      if r < 0 then -1 else r + 1

/-- Python `s.find(c)`: code-point index of the first occurrence, `-1` if absent. -/
def pyFind (s : String) (c : Char) : Int := pyFindAux c s.data

/-- Python slice `s[:i]`, including the negative-index convention. -/
def pySliceTo (s : String) (i : Int) : String :=
  if i < 0 then ⟨s.data.take (s.data.length - (-i).toNat)⟩
  else ⟨s.data.take i.toNat⟩

/-- Python slice `s[i:]`, including the negative-index convention. -/
def pySliceFrom (s : String) (i : Int) : String :=
  if i < 0 then ⟨s.data.drop (s.data.length - (-i).toNat)⟩
  else ⟨s.data.drop i.toNat⟩

/-- Helper for `pySplitChar` (accumulator holds the current field reversed). -/
def pySplitCharAux (sep : Char) : List Char → List Char → List (List Char)
  | [], acc => [acc.reverse]
  | a :: as, acc =>
    if a = sep then acc.reverse :: pySplitCharAux sep as []
    else pySplitCharAux sep as (a :: acc)

/-- Python `s.split(sep)` for a one-character separator
(`"".split("/") = [""]`, `"/x".split("/") = ["", "x"]`). -/
def pySplitChar (s : String) (sep : Char) : List String :=
  (pySplitCharAux sep s.data []).map (fun cs => ⟨cs⟩)

/-- The ASCII uppercase letters with their lowercase forms. -/
def upperLower : List (Char × Char) :=
  [('A', 'a'), ('B', 'b'), ('C', 'c'), ('D', 'd'), ('E', 'e'), ('F', 'f'),
   ('G', 'g'), ('H', 'h'), ('I', 'i'), ('J', 'j'), ('K', 'k'), ('L', 'l'),
   ('M', 'm'), ('N', 'n'), ('O', 'o'), ('P', 'p'), ('Q', 'q'), ('R', 'r'),
   ('S', 's'), ('T', 't'), ('U', 'u'), ('V', 'v'), ('W', 'w'), ('X', 'x'),
   ('Y', 'y'), ('Z', 'z')]

/-- ASCII lowercasing, as applied by a case-insensitive regex match on the
month names (which are pure ASCII). -/
def lowerA (c : Char) : Char :=
  match upperLower.find? (fun p => p.1 = c) with
  | some p => p.2
  | none => c

/-! ## `datetime.strptime(s, "%B %d, %Y")` -/

/-- The full month names recognised by `%B`, with their month numbers, in
the order CPython's `_strptime` tries them (longest first; no name is a
prefix of another, so the order is immaterial). -/
def monthNames : List (String × Nat) :=
  [("september", 9), ("november", 11), ("december", 12), ("february", 2),
   ("january", 1), ("october", 10), ("august", 8), ("march", 3),
   ("april", 4), ("june", 6), ("july", 7), ("may", 5)]

/-- Match `%B` at the head of the (lowercased) input: the month number and
the remaining characters. -/
def matchMonth (cs : List Char) : Option (Nat × List Char) :=
  monthNames.findSome? (fun p =>
    if p.1.data.isPrefixOf cs then some (p.2, cs.drop p.1.data.length) else none)

/-- Length of the maximal whitespace prefix. -/
def leadingWs (cs : List Char) : Nat := (cs.takeWhile pyIsSpace).length

/-- The remainders a greedy-with-backtracking `\s+` can leave: after
consuming `k, k-1, …, 1` leading whitespace characters (longest first,
the regex engine's preference order); empty when there is no leading
whitespace. -/
def wsSplits (cs : List Char) : List (List Char) :=
  (List.range (leadingWs cs)).map (fun i => cs.drop (leadingWs cs - i))

/-- ASCII decimal digit (the `\d` class; non-ASCII digits not modelled). -/
def isDigitC (c : Char) : Bool := '0' ≤ c && c ≤ '9'

/-- Numeric value of an ASCII digit. -/
def digitVal (c : Char) : Nat := c.toNat - '0'.toNat

/-- The `%d` alternatives `3[01]|[12]\d|0[1-9]|[1-9]| [1-9]`, in the
regex's preference order, each with the remaining input. -/
def dayAlts (cs : List Char) : List (Nat × List Char) :=
  (match cs with
   | a :: c :: r =>
     if a = '3' then
       (if c = '0' then [(30, r)] else if c = '1' then [(31, r)] else [])
     else []
   | _ => []) ++
  (match cs with
   | c1 :: c2 :: r =>
     if (c1 = '1' ∨ c1 = '2') ∧ isDigitC c2 then
       [(digitVal c1 * 10 + digitVal c2, r)]
     else []
   | _ => []) ++
  (match cs with
   | a :: c :: r =>
     if a = '0' ∧ '1' ≤ c ∧ c ≤ '9' then [(digitVal c, r)] else []
   | _ => []) ++
  (match cs with
   | c :: r => if '1' ≤ c ∧ c ≤ '9' then [(digitVal c, r)] else []
   | _ => []) ++
  (match cs with
   | a :: c :: r =>
     if a = ' ' ∧ '1' ≤ c ∧ c ≤ '9' then [(digitVal c, r)] else []
   | _ => [])

/-- Match the tail `,\s+(\d\d\d\d)$` after the day: a literal comma, at
least one whitespace character, exactly four digits, end of input.
Returns the year. -/
def matchTail (cs : List Char) : Option Nat :=
  match cs with
  | c :: rest =>
    if c = ',' then
      (wsSplits rest).findSome? (fun r =>
        match r with
        | [c1, c2, c3, c4] =>
          if isDigitC c1 ∧ isDigitC c2 ∧ isDigitC c3 ∧ isDigitC c4 then
            some (((digitVal c1 * 10 + digitVal c2) * 10 + digitVal c3) * 10
                  + digitVal c4)
          else none
        | _ => none)
    else none
  | [] => none

/-- Gregorian leap year, as in `datetime`. -/
def isLeap (y : Nat) : Bool := (y % 4 = 0 && y % 100 ≠ 0) || y % 400 = 0

/-- Days in a month, as validated by the `datetime` constructor. -/
def daysInMonth (y m : Nat) : Nat :=
  if m = 2 then (if isLeap y then 29 else 28)
  else if m = 4 ∨ m = 6 ∨ m = 9 ∨ m = 11 then 30
  else 31

/-- Model of `datetime.strptime(s, "%B %d, %Y")`: `some (year, month, day)` on
success, `none` when the regex does not match the whole input or the
`datetime` constructor rejects the values (day out of range for the
month, year 0). -/
def strptimeBdY (s : String) : Option (Nat × Nat × Nat) :=
  let cs := s.data.map lowerA
  match matchMonth cs with
  | none => none
  | some (m, r1) =>
    match (wsSplits r1).findSome? (fun r2 =>
      (dayAlts r2).findSome? (fun p =>
        (matchTail p.2).map (fun y => (y, p.1)))) with
    | none => none
    | some (y, d) =>
      if 1 ≤ y ∧ 1 ≤ d ∧ d ≤ daysInMonth y m then some (y, m, d) else none

/-- Zero-pad to two digits (`%m`, `%d`). -/
def pad2 (n : Nat) : String := if n < 10 then "0" ++ toString n else toString n

/-- Model of `date.strftime('%Y-%m-%d')` (glibc prints `%Y` without padding;
all years produced by `strptimeBdY` that the claims touch have four
digits). -/
def strftimeYmd (y m d : Nat) : String :=
  toString y ++ "-" ++ pad2 m ++ "-" ++ pad2 d

/-! ## Date normalization (`generate_lab_events.py`, lines 92–103) -/

/-- The splice `text2[:text2.find("–")] + text2[text2.find(","):]`
(lines 94–96); `find` returns `-1` when absent, making the slices use
Python's negative-index convention. -/
def splice_date (text2 : String) : String :=
  pySliceTo text2 (pyFind text2 '–') ++ pySliceFrom text2 (pyFind text2 ',')

/-- Lines 94–99 inside the `try`: splice, `strptime`, `strftime`.  A
`ValueError` from `strptime`/`datetime` is caught by line 100 and
becomes `none`. -/
def parse_date (text2 : String) : Option String :=
  (strptimeBdY (splice_date text2)).map (fun t => strftimeYmd t.1 t.2.1 t.2.2)

/-- Lines 92–103: the date recorded for a listing item whose date field
is `text2` (`none` stands for Python `None`).  `if text2:` is falsy for
`None` and for the empty string. -/
def normalize_date (text2 : Option String) : Option String :=
  match text2 with
  | some t => if t.isEmpty then none else parse_date t
  | none => none

/-! ## `components/result_rate.py`

The module imports its strategy-key constants from `utils.constants`
(`c.RESULT_RATE_STRATEGY.*`), a module of the repository that is not part
of the sources at hand; the five key constants are therefore modelled
from the spec (five fixed, distinct strategy keys).  Everything else —
the `(numerator, denominator)` transforms, the details table, the label
helper and the calculation — is translated from `result_rate.py`.
Numbers are modelled by `ℚ`; `round(x, 1)` by `pyRound1` (CPython rounds
half to even). -/

/-- Modelled from the spec: the five fixed strategy keys of
`c.RESULT_RATE_STRATEGY` (`utils.constants` is not among the sources);
any five distinct strings are faithful. -/
def STRATEGY_IGNORE_TIES : String := "IGNORE_TIES"

/-- Modelled from the spec: see `STRATEGY_IGNORE_TIES`. -/
def STRATEGY_TIES_COUNT_AS_LOSSES : String := "TIES_COUNT_AS_LOSSES"

/-- Modelled from the spec: see `STRATEGY_IGNORE_TIES`. -/
def STRATEGY_TIES_COUNT_AS_HALF_WIN : String := "TIES_COUNT_AS_HALF_WIN"

/-- Modelled from the spec: see `STRATEGY_IGNORE_TIES`. -/
def STRATEGY_TIES_COUNT_AS_THIRD_WIN : String := "TIES_COUNT_AS_THIRD_WIN"

/-- Modelled from the spec: see `STRATEGY_IGNORE_TIES`. -/
def STRATEGY_TIES_COUNT_AS_WINS : String := "TIES_COUNT_AS_WINS"

/-- Model of `_RESULT_RATES` (lines 6–27): per strategy its key, display label,
formula markdown and `(numerator, denominator)` transform. -/
def RESULT_RATES :
    List (String × String × String × (ℚ → ℚ → ℚ → ℚ × ℚ)) :=
  [(STRATEGY_IGNORE_TIES, "Ignore Ties",
    "% = $\\frac\x7bW\x7d\x7bW+L\x7d$",
    fun w l _ => (w, w + l)),
   (STRATEGY_TIES_COUNT_AS_LOSSES, "Count Ties as Losses",
    "% = $\\frac\x7bW\x7d\x7bW+L+T\x7d$",
    fun w l t => (w, w + l + t)),
   (STRATEGY_TIES_COUNT_AS_HALF_WIN, "Count Ties as 1/2 Win",
    "% = $\\frac\x7bW + \\frac\x7bT\x7d\x7b2\x7d\x7d\x7bW+L+T\x7d$",
    fun w l t => (w + t / 2, w + l + t)),
   (STRATEGY_TIES_COUNT_AS_THIRD_WIN, "Count Ties as 1/3 Win",
    "% = $\\frac\x7bW + \\frac\x7bT\x7d\x7b3\x7d\x7d\x7bW+L+T\x7d$",
    fun w l t => (w + t / 3, w + l + t)),
   (STRATEGY_TIES_COUNT_AS_WINS, "Count Ties as Wins",
    "% = $\\frac\x7bW + T\x7d\x7bW+L+T\x7d$",
    fun w l t => (w + t, w + l + t))]

/-- Model of `RESULT_RATE_STRATEGY_DETAILS[strategy]` (lines 28–34): dictionary
lookup by strategy key (the keys of `_RESULT_RATES` are distinct, so
first-match lookup equals the dict built from them). -/
def strategyDetails (strategy : String) :
    Option (String × String × (ℚ → ℚ → ℚ → ℚ × ℚ)) :=
  (RESULT_RATES.find? (fun v => v.1 = strategy)).map (fun v => v.2)

/-- CPython `round(x, 1)`: round half to even at one decimal place. -/
def pyRound1 (x : ℚ) : ℚ :=
  let y := x * 10
  let f : ℤ := ⌊y⌋
  let frac := y - f
  let r : ℤ :=
    if frac < 1/2 then f
    else if frac > 1/2 then f + 1
    else if f % 2 = 0 then f else f + 1
  (r : ℚ) / 10

/-- Model of `create_result_rate_label(strategy, formula_only=False)` (lines
37–46), modelled up to the text of the returned `dcc.Markdown` widget:
`none` for an unknown key (line 39), otherwise the markdown text (the
formula, prefixed by `"{label}: "` unless `formula_only`). -/
def create_result_rate_label (strategy : String) (formula_only : Bool := false) :
    Option String :=
  match strategyDetails strategy with
  | none => none
  | some (label, formula, _) =>
    some (if formula_only then formula else label ++ ": " ++ formula)

/-- Model of `calculate_result_rate(strategy, wins, losses, ties, percentage=False)`
(lines 64–85): the `KeyError` of the dict lookup becomes the
`ValueError` message (lines 78–82); `rate = 0` when the denominator is 0
(line 84); `round(rate * 100, 1)` when a percentage is requested
(line 85). -/
def calculate_result_rate (strategy : String) (wins losses ties : ℚ)
    (percentage : Bool := false) : Except String ℚ :=
  match strategyDetails strategy with
  | none => .error ("Unknown result rate strategy: " ++ strategy)
  | some (_, _, calcFn) =>
    let nd := calcFn wins losses ties
    let rate := if nd.2 = 0 then 0 else nd.1 / nd.2
    .ok (if percentage then pyRound1 (rate * 100) else rate)

/-! ## Parsed HTML

`extract_labs_list_items` receives `BeautifulSoup(page_html).select_one`
etc.; the embedding starts from the parsed element tree.  A document is a
`NodeList` (the top-level nodes in document order); element attributes
are an association list. -/

mutual
/-- A node of the parsed HTML tree: an element with name, attributes and
children, or a text node (`NavigableString`). -/
inductive Node where
  | tag (nm : String) (attrs : List (String × String)) (children : NodeList)
  | text (s : String)
/-- A sequence of sibling nodes in document order. -/
inductive NodeList where
  | nil
  | cons (head : Node) (tail : NodeList)
end

/-- The direct children of a sibling sequence, as an ordinary list. -/
def directList : NodeList → List Node
  | .nil => []
  | .cons n rest => n :: directList rest

/-- The direct children of a node (a text node has none). -/
def childrenOf : Node → List Node
  | .tag _ _ cs => directList cs
  | .text _ => []

/-- The attributes of a node. -/
def attrsOf : Node → List (String × String)
  | .tag _ attrs _ => attrs
  | .text _ => []

/-- Attribute lookup (`tag['k']` / `has_attr('k')`). -/
def attrOf (attrs : List (String × String)) (k : String) : Option String :=
  (attrs.find? (fun p => p.1 = k)).map (fun p => p.2)

/-- Is the node an element with the given tag name (the `name=` filter of
`find` / `find_all`, which never matches text nodes)? -/
def isTag (nm : String) : Node → Bool
  | .tag n _ _ => n = nm
  | .text _ => false

/-- Helper splitting a string into whitespace-separated words (the
multi-valued `class` attribute). -/
def wordsAux : List Char → List Char → List (List Char)
  | [], acc => if acc.isEmpty then [] else [acc.reverse]
  | c :: cs, acc =>
    if pyIsSpace c then
      (if acc.isEmpty then wordsAux cs [] else acc.reverse :: wordsAux cs [])
    else wordsAux cs (c :: acc)

/-- The class list of a `class` attribute value. -/
def classList (v : String) : List String :=
  (wordsAux v.data []).map (fun cs => ⟨cs⟩)

/-- Does the node match the CSS selector `ul.grid`? -/
def isUlGrid : Node → Bool
  | .tag nm attrs _ =>
    nm = "ul" &&
      (match attrOf attrs "class" with
       | some v => (classList v).contains "grid"
       | none => false)
  | .text _ => false

mutual
/-- Model of `select_one('ul.grid')` on a single node: the node itself, else the
first match inside it, in document (pre-)order. -/
def selectUlGridNode : Node → Option Node
  | .tag nm attrs cs =>
    if isUlGrid (.tag nm attrs cs) then some (.tag nm attrs cs)
    else selectUlGridList cs
  | .text _ => none
/-- Model of `select_one('ul.grid')` on a sibling sequence. -/
def selectUlGridList : NodeList → Option Node
  | .nil => none
  | .cons n rest =>
    match selectUlGridNode n with
    | some r => some r
    | none => selectUlGridList rest
end

mutual
/-- Model of `get_text(strip=True)` on a node: every descendant text fragment,
stripped, concatenated in document order. -/
def getTextStrip : Node → String
  | .text s => pyStrip s
  | .tag _ _ cs => getTextsStrip cs
/-- Model of `get_text(strip=True)` over a sibling sequence. -/
def getTextsStrip : NodeList → String
  | .nil => ""
  | .cons n rest => getTextStrip n ++ getTextsStrip rest
end

/-! ## Listing parser (`extract_labs_list_items`, lines 44–105) -/

/-- Lines 65–103 for one `<li>`: `none` when the item is skipped (no
direct `<a>` child, no `href`, or fewer than two `/`-separated href
segments), otherwise `(tournament_id, name, date)`.  The name falls back
to `"Unknown Event"` when the nested `div` structure is absent or the
first text is empty (Python `text1 or "Unknown Event"`). -/
def parseLi (li : Node) : Option (String × String × Option String) :=
  match (childrenOf li).find? (isTag "a") with
  | none => none
  | some a =>
    match attrOf (attrsOf a) "href" with
    | none => none
    | some href =>
      match (pySplitChar href '/').get? 1 with
      | none => none
      | some tid =>
        let texts : Option String × Option String :=
          match (childrenOf a).filter (isTag "div") with
          | d0 :: _ =>
            match (childrenOf d0).filter (isTag "div") with
            | i0 :: i1 :: _ => (some (getTextStrip i0), some (getTextStrip i1))
            | _ => (none, none)
          | [] => (none, none)
        let name :=
          match texts.1 with
          | some s => if s.isEmpty then "Unknown Event" else s
          | none => "Unknown Event"
        some (tid, name, normalize_date texts.2)

/-- Model of `extract_labs_list_items(page_html)` from the parsed document: fails
when `select_one('ul.grid')` finds nothing (lines 54–56; a present `ul`
is truthy whatever its contents, `Tag.__bool__` is constant `True`),
otherwise the per-item loop over the direct `<li>` children (each
qualifying item appends exactly one entry to each of the three lists, so
the loop is a `filterMap`). -/
def extract_labs_list_items (doc : NodeList) :
    Except String (List String × List String × List (Option String)) :=
  match selectUlGridList doc with
  | none => .error "No <ul class=\x27grid\x27> found"
  | some ul =>
    let items := ((childrenOf ul).filter (isTag "li")).filterMap parseLi
    .ok (items.map (fun i => i.1), items.map (fun i => i.2.1),
         items.map (fun i => i.2.2))

/-! ## Event records and the orchestrator (`scrape_labs_events`)

An `Event` mirrors the JSON object shape this pipeline reads and writes
(`date` may be `null`, `player_count` and `format` may be absent).  The
snapshot file is modelled by the list of records it deserializes to; the
network is modelled by the `oracle` argument standing for
`fetch_division_player_count` (which already converts every fetch/parse
failure into `None`).  Console output, the pacing delay and the HTTP
session are I/O effects outside the embedding. -/

/-- One event record of the snapshot. -/
structure Event where
  id : String
  name : String
  date : Option String
  game : String
  division : String
  player_count : Option Nat
  format : Option String
deriving DecidableEq, Repr

/-- Model of `load_existing_events` (lines 108–129) keyed lookup: the dict
comprehension `{event['id']: event for event in events}` keeps, for each
id, the last record having it. -/
def lookupEvent (snapshot : List Event) (k : String) : Option Event :=
  snapshot.reverse.find? (fun e => e.id = k)

/-- Line 196: the fixed division codes, in iteration order. -/
def divisions : List String := ["JR", "SR", "MA"]

/-- Python truthiness of an optional string (`if format:`): `None` and
`""` are falsy. -/
def pyTruthy (s : Option String) : Option String :=
  match s with
  | some v => if v.isEmpty then none else some v
  | none => none

/-- Lines 217–233: the freshly assembled record of a cache miss. -/
def buildEvent (oracle : String → String → Option Nat) (game : String)
    (format : Option String) (tid name : String) (date : Option String)
    (division : String) : Event :=
  { id := tid ++ "_" ++ division,
    name := name ++ " (" ++ division ++ ")",
    date := date,
    game := game,
    division := division,
    player_count := oracle tid division,
    format := pyTruthy format }

/-- Lines 203–238 for one tournament/division pair: the cached record
unchanged on a cache hit (`false` = no fresh fetch), or a freshly built
record (`true` = one fresh fetch). -/
def processPair (existing : String → Option Event)
    (oracle : String → String → Option Nat) (game : String)
    (format : Option String) (tid name : String) (date : Option String)
    (division : String) : Event × Bool :=
  match existing (tid ++ "_" ++ division) with
  | some e => (e, false)
  | none => (buildEvent oracle game format tid name date division, true)

/-- The loop of lines 200–238: tournaments in listing order, divisions in
fixed order, collecting each appended record with its fetched/cached
flag. -/
def processAll (existing : String → Option Event)
    (oracle : String → String → Option Nat) (game : String)
    (format : Option String) :
    List (String × String × Option String) → List (Event × Bool)
  | [] => []
  | (tid, name, date) :: rest =>
    divisions.map (processPair existing oracle game format tid name date) ++
      processAll existing oracle game format rest

/-- The sort key of line 248:
`(x.get('date') or '', x.get('division') or '')` (for records of shape
`Event` the `or ''` fallbacks are the empty string exactly when the
field is null/empty). -/
def sortKey (e : Event) : String × String := (e.date.getD "", e.division)

/-- CPython `str` comparison of characters: code-point order. -/
def charLtB (a b : Char) : Bool := a.toNat < b.toNat

/-- CPython `str` comparison: lexicographic by code point, a proper
prefix is smaller. -/
def listLtB : List Char → List Char → Bool
  | [], [] => false
  | [], _ :: _ => true
  | _ :: _, [] => false
  | a :: as, b :: bs =>
    if charLtB a b then true
    else if charLtB b a then false
    else listLtB as bs

/-- CPython `s1 < s2` on strings. -/
def strLtB (s t : String) : Bool := listLtB s.data t.data

/-- Strict lexicographic `<` on string pairs — CPython tuple
comparison. -/
def keyLt (a b : String × String) : Bool :=
  strLtB a.1 b.1 || (a.1 == b.1 && strLtB a.2 b.2)

/-- Stable insertion (descending): the new element, which originates
earlier in the input than everything already placed, goes before the
first element whose key is not greater. -/
def insertEventDesc (a : Event) : List Event → List Event
  | [] => [a]
  | b :: bs =>
    if keyLt (sortKey a) (sortKey b) then b :: insertEventDesc a bs
    else a :: b :: bs

/-- Model of `events.sort(key=..., reverse=True)` (line 248).  CPython's sort is
the stable descending sort by the key, and a stable sort is uniquely
determined by the ordering, so stable insertion sort is the same
function. -/
def sortEventsDesc : List Event → List Event
  | [] => []
  | a :: rest => insertEventDesc a (sortEventsDesc rest)

/-- The result of one orchestrator run: the sorted record array it
returns (and serializes to the output file, a deterministic function of
the array) and the run summary counters. -/
structure ScrapeOutcome where
  events : List Event
  fetch_count : Nat
  cached_count : Nat
deriving DecidableEq, Repr

/-- Model of `scrape_labs_events` (lines 158–257): parse the listing from the
already-fetched homepage document, merge each tournament × division pair
against the prior snapshot, sort, and return the array with the two
counters.  A structural listing failure propagates (nothing written). -/
def scrape_labs_events (doc : NodeList) (snapshot : List Event)
    (oracle : String → String → Option Nat) (game : String)
    (format : Option String) : Except String ScrapeOutcome :=
  match extract_labs_list_items doc with
  | .error e => .error e
  | .ok (ids, names, dates) =>
    let prs := processAll (lookupEvent snapshot) oracle game format
      (ids.zip (names.zip dates))
    .ok { events := sortEventsDesc (prs.map (fun p => p.1)),
          fetch_count := (prs.filter (fun p => p.2)).length,
          cached_count := (prs.filter (fun p => !p.2)).length }

/-! ## Auxiliary definitions for the theorems below -/

/-- Decidable equality of `Except` results (used to evaluate the
embedding at concrete inputs). -/
instance {ε α : Type} [DecidableEq ε] [DecidableEq α] :
    DecidableEq (Except ε α) := fun a b =>
  match a, b with
  | .error x, .error y =>
    if h : x = y then isTrue (by rw [h]) else isFalse (fun hc => h (by injection hc))
  | .ok x, .ok y =>
    if h : x = y then isTrue (by rw [h]) else isFalse (fun hc => h (by injection hc))
  | .error _, .ok _ => isFalse (fun hc => Except.noConfusion hc)
  | .ok _, .error _ => isFalse (fun hc => Except.noConfusion hc)

/-- The five strategy keys of the formula table. -/
def strategyKeys : List String := RESULT_RATES.map (fun v => v.1)

/-- Non-strict comparison `a ≤ b` in the lexicographic code-point order
on string pairs (CPython tuple `<=` on pairs of `str`). -/
def pairLe (a b : String × String) : Prop :=
  strLtB a.1 b.1 = true ∨ (a.1 = b.1 ∧ (strLtB a.2 b.2 = true ∨ a.2 = b.2))

/-- The composite ids `{tournament_id}_{division}` generated for a
listing, in assembly order. -/
def compositeIds : List (String × String × Option String) → List String
  | [] => []
  | (tid, _, _) :: rest =>
    divisions.map (fun d => tid ++ "_" ++ d) ++ compositeIds rest

/-- Convenience constructor for sibling sequences. -/
def nodesOf : List Node → NodeList
  | [] => .nil
  | n :: ns => .cons n (nodesOf ns)

/-- A listing item in the shape the scraper expects: `<li><a
href="/{tid}/…"><div><div>{name}</div><div>{date}</div></div></a></li>`. -/
def mkLi (tid name date : String) : Node :=
  .tag "li" [] (nodesOf [.tag "a" [("href", "/" ++ tid ++ "/details")] (nodesOf [
    .tag "div" [] (nodesOf [.tag "div" [] (nodesOf [.text name]),
                            .tag "div" [] (nodesOf [.text date])])])])

/-- A two-tournament listing page with distinct tournament ids. -/
def docA : NodeList :=
  nodesOf [.tag "ul" [("class", "grid")] (nodesOf
    [mkLi "t1" "Event One" "July 12–14, 2025",
     mkLi "t2" "Event Two" "March 2–3, 2025"])]

/-- A listing page whose two items carry the same tournament id `t1`
with different names and dates. -/
def docDup : NodeList :=
  nodesOf [.tag "ul" [("class", "grid")] (nodesOf
    [mkLi "t1" "Alpha" "July 12–14, 2025",
     mkLi "t1" "Beta" "March 2–3, 2025"])]

/-- A document with no `ul.grid` container at all. -/
def docNoGrid : NodeList := nodesOf [.tag "div" [] .nil]

/-- A document whose `ul.grid` is present but contains a single `li`
without an anchor — zero qualifying items. -/
def docEmptyGrid : NodeList :=
  nodesOf [.tag "ul" [("class", "grid")] (.cons (.tag "li" [] .nil) .nil)]

/-- A standings oracle for the concrete runs. -/
def oracleA : String → String → Option Nat :=
  fun t d => if t = "t1" && d = "MA" then some 120 else some 7

/-- The snapshot the orchestrator produces on `docA` from an empty prior
snapshot with `oracleA`, game `"PTCG"` and no format. -/
def evA : List Event :=
  [{ id := "t1_SR", name := "Event One (SR)", date := some "2025-07-12", game := "PTCG",
     division := "SR", player_count := some 7, format := none },
   { id := "t1_MA", name := "Event One (MA)", date := some "2025-07-12", game := "PTCG",
     division := "MA", player_count := some 120, format := none },
   { id := "t1_JR", name := "Event One (JR)", date := some "2025-07-12", game := "PTCG",
     division := "JR", player_count := some 7, format := none },
   { id := "t2_SR", name := "Event Two (SR)", date := some "2025-03-02", game := "PTCG",
     division := "SR", player_count := some 7, format := none },
   { id := "t2_MA", name := "Event Two (MA)", date := some "2025-03-02", game := "PTCG",
     division := "MA", player_count := some 7, format := none },
   { id := "t2_JR", name := "Event Two (JR)", date := some "2025-03-02", game := "PTCG",
     division := "JR", player_count := some 7, format := none }]

/-! ## Result-rate claims -/

/-- C5: for wins=3, losses=1, ties=2 and percentage=False,
`calculate_result_rate` returns 3/4 under ignore-ties, 3/6 under
ties-as-losses, 4/6 under ties-as-half-win, (3+2/3)/6 under
ties-as-third-win and 5/6 under ties-as-wins; with percentage=True each
of these values is multiplied by 100 and rounded to one decimal place
(75.0, 50.0, 66.7, 61.1, 83.3). -/
theorem calculate_result_rate_values :
    calculate_result_rate STRATEGY_IGNORE_TIES 3 1 2 false = .ok (3 / 4) ∧
    calculate_result_rate STRATEGY_TIES_COUNT_AS_LOSSES 3 1 2 false = .ok (3 / 6) ∧
    calculate_result_rate STRATEGY_TIES_COUNT_AS_HALF_WIN 3 1 2 false = .ok (4 / 6) ∧
    calculate_result_rate STRATEGY_TIES_COUNT_AS_THIRD_WIN 3 1 2 false = .ok ((3 + 2 / 3) / 6) ∧
    calculate_result_rate STRATEGY_TIES_COUNT_AS_WINS 3 1 2 false = .ok (5 / 6) ∧
    calculate_result_rate STRATEGY_IGNORE_TIES 3 1 2 true = .ok 75 ∧
    calculate_result_rate STRATEGY_TIES_COUNT_AS_LOSSES 3 1 2 true = .ok 50 ∧
    calculate_result_rate STRATEGY_TIES_COUNT_AS_HALF_WIN 3 1 2 true = .ok (667 / 10) ∧
    calculate_result_rate STRATEGY_TIES_COUNT_AS_THIRD_WIN 3 1 2 true = .ok (611 / 10) ∧
    calculate_result_rate STRATEGY_TIES_COUNT_AS_WINS 3 1 2 true = .ok (833 / 10) := by
  refine ⟨?_, ?_, ?_, ?_, ?_, ?_, ?_, ?_, ?_, ?_⟩ <;>
  · simp +decide only [calculate_result_rate, strategyDetails, RESULT_RATES,
      STRATEGY_IGNORE_TIES, STRATEGY_TIES_COUNT_AS_LOSSES, STRATEGY_TIES_COUNT_AS_HALF_WIN,
      STRATEGY_TIES_COUNT_AS_THIRD_WIN, STRATEGY_TIES_COUNT_AS_WINS, List.find?, Option.map]
    norm_num [pyRound1]

/-- C6: for every known strategy key, `calculate_result_rate` with
wins=losses=ties=0 returns rate 0 under both percentage settings, and
more generally whenever the strategy's denominator transform evaluates
to 0 the returned rate is 0 — never a division failure. -/
theorem calculate_result_rate_zero_denominator :
    (∀ strategy ∈ strategyKeys, ∀ percentage : Bool,
        calculate_result_rate strategy 0 0 0 percentage = .ok 0) ∧
    (∀ (strategy lbl fml : String) (calcFn : ℚ → ℚ → ℚ → ℚ × ℚ)
        (wins losses ties : ℚ) (percentage : Bool),
        strategyDetails strategy = some (lbl, fml, calcFn) →
        (calcFn wins losses ties).2 = 0 →
        calculate_result_rate strategy wins losses ties percentage = .ok 0) := by
  have main : ∀ (strategy lbl fml : String) (calcFn : ℚ → ℚ → ℚ → ℚ × ℚ)
      (wins losses ties : ℚ) (percentage : Bool),
      strategyDetails strategy = some (lbl, fml, calcFn) →
      (calcFn wins losses ties).2 = 0 →
      calculate_result_rate strategy wins losses ties percentage = .ok 0 := by
    intro strategy lbl fml calcFn w l t p hs hd
    cases p <;>
    · simp only [calculate_result_rate, hs, hd]
      norm_num [pyRound1]
  refine ⟨?_, main⟩
  intro s hs p
  simp only [strategyKeys, RESULT_RATES, List.map, List.mem_cons,
    List.not_mem_nil, or_false] at hs
  rcases hs with h | h | h | h | h <;> subst h
  · exact main _ _ _ (fun w l _ => (w, w + l)) 0 0 0 p rfl (by norm_num)
  · exact main _ _ _ (fun w l t => (w, w + l + t)) 0 0 0 p rfl (by norm_num)
  · exact main _ _ _ (fun w l t => (w + t / 2, w + l + t)) 0 0 0 p rfl (by norm_num)
  · exact main _ _ _ (fun w l t => (w + t / 3, w + l + t)) 0 0 0 p rfl (by norm_num)
  · exact main _ _ _ (fun w l t => (w + t, w + l + t)) 0 0 0 p rfl (by norm_num)

/-- C6 witness: the all-zero record under the first strategy key, both
plain and as a percentage, and an instance of the general
zero-denominator clause. -/
theorem calculate_result_rate_zero_denominator_witness :
    calculate_result_rate STRATEGY_IGNORE_TIES 0 0 0 true = .ok 0 ∧
    calculate_result_rate STRATEGY_IGNORE_TIES 1 (-1) 5 false = .ok 0 :=
  ⟨calculate_result_rate_zero_denominator.1 STRATEGY_IGNORE_TIES (by decide) true,
   calculate_result_rate_zero_denominator.2 STRATEGY_IGNORE_TIES "Ignore Ties"
     "% = $\\frac\x7bW\x7d\x7bW+L\x7d$" (fun w l _ => (w, w + l)) 1 (-1) 5 false rfl
     (by norm_num)⟩

/-- Helper: a key outside the table makes the details lookup fail. -/
theorem strategyDetails_eq_none {strategy : String} (h : strategy ∉ strategyKeys) :
    strategyDetails strategy = none := by
  have hf : RESULT_RATES.find? (fun v => v.1 = strategy) = none := by
    rw [List.find?_eq_none]
    intro x hx hpx
    refine h ?_
    simp only [decide_eq_true_eq] at hpx
    exact hpx ▸ List.mem_map_of_mem (fun v => v.1) hx
  simp [strategyDetails, hf]

/-- C7: for every strategy key outside the five fixed strategies,
`calculate_result_rate` raises the value error naming the offending key,
for all wins/losses/ties/percentage — never a defaulted rate. -/
theorem calculate_result_rate_unknown_key (strategy : String)
    (wins losses ties : ℚ) (percentage : Bool) (h : strategy ∉ strategyKeys) :
    calculate_result_rate strategy wins losses ties percentage =
      .error ("Unknown result rate strategy: " ++ strategy) := by
  simp only [calculate_result_rate, strategyDetails_eq_none h]

/-- C7 witness: a concrete unknown key. -/
theorem calculate_result_rate_unknown_key_witness :
    calculate_result_rate "NO_SUCH_STRATEGY" 1 2 3 true =
      .error "Unknown result rate strategy: NO_SUCH_STRATEGY" :=
  calculate_result_rate_unknown_key "NO_SUCH_STRATEGY" 1 2 3 true (by decide)

/-- C10: for every strategy key outside the five fixed strategies and
both values of formula_only, `create_result_rate_label` returns `None`
silently — unlike the calculation function it raises nothing. -/
theorem create_result_rate_label_unknown_key (strategy : String)
    (formula_only : Bool) (h : strategy ∉ strategyKeys) :
    create_result_rate_label strategy formula_only = none := by
  simp only [create_result_rate_label, strategyDetails_eq_none h]

/-- C10 witness: a concrete unknown key, with and without
formula_only. -/
theorem create_result_rate_label_unknown_key_witness :
    create_result_rate_label "BOGUS_KEY" false = none ∧
    create_result_rate_label "BOGUS_KEY" true = none :=
  ⟨create_result_rate_label_unknown_key "BOGUS_KEY" false (by decide),
   create_result_rate_label_unknown_key "BOGUS_KEY" true (by decide)⟩

/-! ## Date-normalization claims -/

/-- C2 (counterexample): for the date field `"July 12 – 14, 2025"` with
a space on each side of the en-dash, the normalization yields a null
date, not `"2025-07-12"`. -/
theorem normalize_date_spaced_en_dash :
    normalize_date (some "July 12 – 14, 2025") = none := by decide

/-- C2 (amended): the splice keeps the space before the comma, giving
`"July 12 , 2025"`, which the `Month Day, Year` parse rejects, so the
spaced field yields a null date; the same field without spaces around
the en-dash yields `"2025-07-12"`. -/
theorem normalize_date_en_dash :
    splice_date "July 12 – 14, 2025" = "July 12 , 2025" ∧
    normalize_date (some "July 12 – 14, 2025") = none ∧
    normalize_date (some "July 12–14, 2025") = some "2025-07-12" := by
  refine ⟨?_, ?_, ?_⟩ <;> decide

/-! ## Listing-parser structural claims -/

/-- C4: a document in which the designated `ul.grid` container is absent
raises the structural error; a document whose container is present but
has zero qualifying direct `li` children yields empty sequences without
raising. -/
theorem extract_labs_list_items_structural (doc : NodeList) :
    (selectUlGridList doc = none →
      extract_labs_list_items doc = .error "No <ul class=\x27grid\x27> found") ∧
    (∀ ul, selectUlGridList doc = some ul →
      (∀ li ∈ (childrenOf ul).filter (isTag "li"), parseLi li = none) →
      extract_labs_list_items doc = .ok ([], [], [])) := by
  constructor
  · intro h
    simp [extract_labs_list_items, h]
  · intro ul hul hnone
    have : ((childrenOf ul).filter (isTag "li")).filterMap parseLi = [] := by
      rw [List.filterMap_eq_nil_iff]
      exact hnone
    simp [extract_labs_list_items, hul, this]

/-- C4 witness: a container-free document errors; a container with one
non-qualifying `li` yields the empty listing. -/
theorem extract_labs_list_items_structural_witness :
    extract_labs_list_items docNoGrid = .error "No <ul class=\x27grid\x27> found" ∧
    extract_labs_list_items docEmptyGrid = .ok ([], [], []) :=
  ⟨(extract_labs_list_items_structural docNoGrid).1 rfl,
   (extract_labs_list_items_structural docEmptyGrid).2
     (.tag "ul" [("class", "grid")] (.cons (.tag "li" [] .nil) .nil)) rfl (by decide)⟩

/-! ## Order lemmas for the sort -/

/-- Helper: characters with equal code points are equal. -/
theorem char_eq_of_toNat_eq {a b : Char} (h : a.toNat = b.toNat) : a = b :=
  Char.ext (UInt32.toNat.inj h)

/-- Helper: `charLtB` is irreflexive. -/
theorem charLtB_irrefl (a : Char) : charLtB a a = false := by
  simp [charLtB]

/-- Helper: `charLtB` is transitive. -/
theorem charLtB_trans {a b c : Char} (h1 : charLtB a b = true)
    (h2 : charLtB b c = true) : charLtB a c = true := by
  simp only [charLtB, decide_eq_true_eq] at *
  omega

/-- Helper: characters that are mutually not-less are equal. -/
theorem charLtB_conn {a b : Char} (h1 : charLtB a b = false)
    (h2 : charLtB b a = false) : a = b := by
  simp only [charLtB, decide_eq_false_iff_not] at *
  exact char_eq_of_toNat_eq (by omega)

/-- Helper: nothing is below the empty list. -/
theorem listLtB_nil (l : List Char) : listLtB l [] = false := by
  cases l <;> rfl

/-- Helper: unfolding of `listLtB` on two cons cells, `true` case. -/
theorem listLtB_cons_iff {a b : Char} {as bs : List Char} :
    listLtB (a :: as) (b :: bs) = true ↔
      (charLtB a b = true ∨
        (charLtB a b = false ∧ charLtB b a = false ∧ listLtB as bs = true)) := by
  simp only [listLtB]
  rcases h1 : charLtB a b with _ | _ <;> rcases h2 : charLtB b a with _ | _ <;> simp

/-- Helper: unfolding of `listLtB` on two cons cells, `false` case. -/
theorem listLtB_cons_false_iff {a b : Char} {as bs : List Char} :
    listLtB (a :: as) (b :: bs) = false ↔
      (charLtB a b = false ∧ (charLtB b a = true ∨ listLtB as bs = false)) := by
  simp only [listLtB]
  rcases h1 : charLtB a b with _ | _ <;> rcases h2 : charLtB b a with _ | _ <;> simp

/-- Helper: `listLtB` is transitive. -/
theorem listLtB_trans : ∀ {a b c : List Char}, listLtB a b = true →
    listLtB b c = true → listLtB a c = true
  | _, b, [], _, h2 => absurd h2 (by simp [listLtB_nil])
  | [], b, _ :: _, _, _ => rfl
  | a :: as, [], c :: cs, h1, _ => absurd h1 (by simp [listLtB_nil])
  | a :: as, x :: bs, c :: cs, h1, h2 => by
    rcases listLtB_cons_iff.mp h1 with hax | ⟨hax, hxa, hrec1⟩ <;>
      rcases listLtB_cons_iff.mp h2 with hxc | ⟨hxc, hcx, hrec2⟩
    · exact listLtB_cons_iff.mpr (Or.inl (charLtB_trans hax hxc))
    · have hxeq : x = c := charLtB_conn hxc hcx
      exact listLtB_cons_iff.mpr (Or.inl (hxeq ▸ hax))
    · have haeq : a = x := charLtB_conn hax hxa
      exact listLtB_cons_iff.mpr (Or.inl (haeq ▸ hxc))
    · have haeq : a = x := charLtB_conn hax hxa
      have hxeq : x = c := charLtB_conn hxc hcx
      subst haeq; subst hxeq
      exact listLtB_cons_iff.mpr
        (Or.inr ⟨charLtB_irrefl a, charLtB_irrefl a, listLtB_trans hrec1 hrec2⟩)

/-- Helper: lists that are mutually not-less are equal. -/
theorem listLtB_conn : ∀ {a b : List Char}, listLtB a b = false →
    listLtB b a = false → a = b
  | [], [], _, _ => rfl
  | [], _ :: _, h1, _ => absurd h1 (by simp [listLtB])
  | _ :: _, [], _, h2 => absurd h2 (by simp [listLtB])
  | a :: as, b :: bs, h1, h2 => by
    obtain ⟨hab, hrest1⟩ := listLtB_cons_false_iff.mp h1
    obtain ⟨hba, hrest2⟩ := listLtB_cons_false_iff.mp h2
    have heq : a = b := charLtB_conn hab hba
    have hr1 : listLtB as bs = false := by
      rcases hrest1 with h | h
      · exact absurd h (by simp [hba])
      · exact h
    have hr2 : listLtB bs as = false := by
      rcases hrest2 with h | h
      · exact absurd h (by simp [hab])
      · exact h
    rw [heq, listLtB_conn hr1 hr2]

/-- Helper: strings with equal character data are equal. -/
theorem string_eq_of_data_eq {s t : String} (h : s.data = t.data) : s = t :=
  congrArg String.mk h

/-- Helper: `strLtB` is transitive. -/
theorem strLtB_trans {a b c : String} (h1 : strLtB a b = true)
    (h2 : strLtB b c = true) : strLtB a c = true :=
  listLtB_trans h1 h2

/-- Helper: strings that are mutually not-less are equal. -/
theorem strLtB_conn {a b : String} (h1 : strLtB a b = false)
    (h2 : strLtB b a = false) : a = b :=
  string_eq_of_data_eq (listLtB_conn h1 h2)

/-- Helper: `listLtB` is irreflexive. -/
theorem listLtB_irrefl : ∀ l : List Char, listLtB l l = false
  | [] => rfl
  | a :: as => by
    simp only [listLtB, charLtB_irrefl, Bool.false_eq_true, if_false]
    exact listLtB_irrefl as

/-- Helper: `strLtB` is irreflexive. -/
theorem strLtB_irrefl (a : String) : strLtB a a = false :=
  listLtB_irrefl a.data

/-- Helper: `keyLt` is irreflexive. -/
theorem keyLt_irrefl (x : String × String) : keyLt x x = false := by
  simp [keyLt, strLtB_irrefl]

/-- Helper: `keyLt` is transitive. -/
theorem keyLt_trans {x y z : String × String} (h1 : keyLt x y = true)
    (h2 : keyLt y z = true) : keyLt x z = true := by
  simp only [keyLt, Bool.or_eq_true, Bool.and_eq_true, beq_iff_eq] at h1 h2 ⊢
  rcases h1 with h1 | ⟨h1e, h1s⟩ <;> rcases h2 with h2 | ⟨h2e, h2s⟩
  · exact Or.inl (strLtB_trans h1 h2)
  · exact Or.inl (h2e ▸ h1)
  · exact Or.inl (h1e ▸ h2)
  · exact Or.inr ⟨h1e.trans h2e, strLtB_trans h1s h2s⟩

/-- Helper: pairs that are mutually not-less are equal. -/
theorem keyLt_conn {x y : String × String} (h1 : keyLt x y = false)
    (h2 : keyLt y x = false) : x = y := by
  simp only [keyLt, Bool.or_eq_false_iff, Bool.and_eq_false_iff, beq_eq_false_iff_ne,
    ne_eq] at h1 h2
  obtain ⟨h1f, h1s⟩ := h1
  obtain ⟨h2f, h2s⟩ := h2
  have hfst : x.1 = y.1 := strLtB_conn h1f h2f
  rcases h1s with h | h1s
  · exact absurd hfst h
  rcases h2s with h | h2s
  · exact absurd hfst.symm h
  have hsnd : x.2 = y.2 := strLtB_conn h1s h2s
  exact Prod.ext hfst hsnd

/-- Helper: strings that are not-less in one direction are greater or
equal: not-less of `x` below `y` means `y < x` or `x = y`. -/
theorem strLtB_false_iff {x y : String} :
    strLtB x y = false ↔ (strLtB y x = true ∨ x = y) := by
  constructor
  · intro h
    rcases h2 : strLtB y x with _ | _
    · exact Or.inr (strLtB_conn h h2)
    · exact Or.inl rfl
  · rintro (h | rfl)
    · rcases h2 : strLtB x y with _ | _
      · rfl
      · exact absurd (strLtB_trans h2 h) (by simp [strLtB_irrefl])
    · exact strLtB_irrefl x

/-- Helper: not-less is transitive for `keyLt`. -/
theorem keyLt_false_trans {x y z : String × String} (h1 : keyLt x y = false)
    (h2 : keyLt y z = false) : keyLt x z = false := by
  simp only [keyLt, Bool.or_eq_false_iff, Bool.and_eq_false_iff, beq_eq_false_iff_ne,
    ne_eq] at h1 h2 ⊢
  obtain ⟨h1f, h1s⟩ := h1
  obtain ⟨h2f, h2s⟩ := h2
  have hfst : strLtB x.1 z.1 = false := by
    rcases strLtB_false_iff.mp h1f with hyx | hxy
    · rcases hf : strLtB x.1 z.1 with _ | _
      · rfl
      · exact absurd (strLtB_trans hyx hf) (by simp [h2f])
    · rw [hxy]; exact h2f
  refine ⟨hfst, ?_⟩
  by_cases hxz : x.1 = z.1
  · have hxy : x.1 = y.1 := strLtB_conn h1f (by rw [hxz]; exact h2f)
    have hyz : y.1 = z.1 := hxy ▸ hxz
    have h1ss : strLtB x.2 y.2 = false := by
      rcases h1s with h | h
      · exact absurd hxy h
      · exact h
    have h2ss : strLtB y.2 z.2 = false := by
      rcases h2s with h | h
      · exact absurd hyz h
      · exact h
    refine Or.inr ?_
    rcases strLtB_false_iff.mp h1ss with hyx2 | hxy2
    · rcases hf : strLtB x.2 z.2 with _ | _
      · rfl
      · exact absurd (strLtB_trans hyx2 hf) (by simp [h2ss])
    · rw [hxy2]; exact h2ss
  · exact Or.inl hxz

/-- Helper: asymmetry of `keyLt`. -/
theorem keyLt_asym {x y : String × String} (h : keyLt x y = true) :
    keyLt y x = false := by
  rcases h2 : keyLt y x with _ | _
  · rfl
  · exact absurd (keyLt_trans h h2) (by simp [keyLt_irrefl])

/-- Helper: membership in a stable insertion. -/
theorem mem_insertEventDesc {a y : Event} : ∀ {l : List Event},
    y ∈ insertEventDesc a l ↔ y = a ∨ y ∈ l
  | [] => by simp [insertEventDesc]
  | b :: bs => by
    simp only [insertEventDesc]
    split
    · rw [List.mem_cons, @mem_insertEventDesc a y bs, List.mem_cons]
      tauto
    · exact List.mem_cons

/-- Helper: stable insertion preserves descending sortedness. -/
theorem pairwise_insertEventDesc {a : Event} : ∀ {l : List Event},
    l.Pairwise (fun x y => keyLt (sortKey x) (sortKey y) = false) →
    (insertEventDesc a l).Pairwise (fun x y => keyLt (sortKey x) (sortKey y) = false)
  | [], _ => by simp [insertEventDesc]
  | b :: bs, h => by
    obtain ⟨hb, hbs⟩ := List.pairwise_cons.mp h
    simp only [insertEventDesc]
    split
    · refine List.pairwise_cons.mpr ⟨?_, pairwise_insertEventDesc hbs⟩
      intro y hy
      rcases (@mem_insertEventDesc a y bs).mp hy with rfl | hy2
      · exact keyLt_asym (by assumption)
      · exact hb y hy2
    · rename_i hge
      have hfalse : keyLt (sortKey a) (sortKey b) = false := by
        rcases hab : keyLt (sortKey a) (sortKey b) with _ | _
        · rfl
        · exact absurd hab hge
      refine List.pairwise_cons.mpr ⟨?_, h⟩
      intro y hy
      rcases List.mem_cons.mp hy with rfl | hy2
      · exact hfalse
      · exact keyLt_false_trans hfalse (hb y hy2)

/-- Helper: the descending sort is pairwise-sorted. -/
theorem sortEventsDesc_pairwise : ∀ l : List Event,
    (sortEventsDesc l).Pairwise (fun x y => keyLt (sortKey x) (sortKey y) = false)
  | [] => List.Pairwise.nil
  | a :: rest => pairwise_insertEventDesc (sortEventsDesc_pairwise rest)

/-- Helper: insertion is a permutation of consing. -/
theorem insertEventDesc_perm (a : Event) : ∀ l : List Event,
    List.Perm (insertEventDesc a l) (a :: l)
  | [] => List.Perm.refl _
  | b :: bs => by
    simp only [insertEventDesc]
    split
    · exact ((insertEventDesc_perm a bs).cons b).trans (List.Perm.swap a b bs)
    · exact List.Perm.refl _

/-- Helper: the descending sort is a permutation of its input. -/
theorem sortEventsDesc_perm : ∀ l : List Event, List.Perm (sortEventsDesc l) l
  | [] => List.Perm.refl _
  | a :: rest =>
    (insertEventDesc_perm a (sortEventsDesc rest)).trans
      ((sortEventsDesc_perm rest).cons a)

/-- Helper: `keyLt x y = false` states exactly that `y ≤ x` in the
lexicographic pair order. -/
theorem keyLt_eq_false_iff_pairLe {x y : String × String} :
    keyLt x y = false ↔ pairLe y x := by
  simp only [keyLt, pairLe, Bool.or_eq_false_iff, Bool.and_eq_false_iff,
    beq_eq_false_iff_ne, ne_eq]
  constructor
  · rintro ⟨h1, h2⟩
    rcases strLtB_false_iff.mp h1 with hlt | heq
    · exact Or.inl hlt
    · refine Or.inr ⟨heq.symm, ?_⟩
      rcases h2 with h | h
      · exact absurd heq h
      · rcases strLtB_false_iff.mp h with hlt2 | heq2
        · exact Or.inl hlt2
        · exact Or.inr heq2.symm
  · rintro (hlt | ⟨heq, hsnd⟩)
    · have hne : ¬ x.1 = y.1 := by
        intro hx
        rw [hx] at hlt
        simp [strLtB_irrefl] at hlt
      exact ⟨strLtB_false_iff.mpr (Or.inl hlt), Or.inl hne⟩
    · refine ⟨strLtB_false_iff.mpr (Or.inr heq.symm), Or.inr ?_⟩
      rcases hsnd with hlt2 | heq2
      · exact strLtB_false_iff.mpr (Or.inl hlt2)
      · exact strLtB_false_iff.mpr (Or.inr heq2.symm)

/-- C8: the record array returned (and persisted) by every successful
orchestrator run is sorted descending by the pair
(date-or-empty-string, division-or-empty-string) compared
lexicographically; in particular every null-dated record comes after
every record with a nonempty date. -/
theorem scrape_labs_events_sorted (doc : NodeList) (snapshot : List Event)
    (oracle : String → String → Option Nat) (game : String)
    (format : Option String) (out : ScrapeOutcome)
    (h : scrape_labs_events doc snapshot oracle game format = .ok out) :
    out.events.Pairwise (fun a b => pairLe (sortKey b) (sortKey a)) ∧
    ∀ (i j : Fin out.events.length),
      (out.events.get i).date = none →
      (out.events.get j).date.getD "" ≠ "" → (j : Nat) < (i : Nat) := by
  have hev : ∃ l, out.events = sortEventsDesc l := by
    unfold scrape_labs_events at h
    rcases hex : extract_labs_list_items doc with e | ⟨ids, names, dates⟩ <;>
      rw [hex] at h
    · cases h
    · cases h
      exact ⟨_, rfl⟩
  obtain ⟨l, hl⟩ := hev
  have hpw : out.events.Pairwise
      (fun x y => keyLt (sortKey x) (sortKey y) = false) := by
    rw [hl]; exact sortEventsDesc_pairwise l
  constructor
  · exact hpw.imp (fun hxy => keyLt_eq_false_iff_pairLe.mp hxy)
  · intro i j hdi hdj
    rcases Nat.lt_trichotomy (j : Nat) (i : Nat) with hij | hij | hij
    · exact hij
    · exfalso
      have : i = j := Fin.ext hij.symm
      subst this
      rw [hdi] at hdj
      exact hdj rfl
    · exfalso
      have hr := List.pairwise_iff_get.mp hpw i j (by omega)
      have hple := keyLt_eq_false_iff_pairLe.mp hr
      have hdi2 : out.events[(i : Nat)].date = none := by
        simpa using hdi
      have hkey : (sortKey (out.events.get i)).1 = "" := by
        simp [sortKey, hdi2]
      rcases hple with hlt | ⟨heq, _⟩
      · rw [hkey] at hlt
        exact absurd hlt (by simp [strLtB, listLtB_nil])
      · rw [hkey] at heq
        have hj0 : (out.events.get j).date.getD "" = "" := by
          simpa [sortKey] using heq
        exact hdj hj0

/-- C8 witness: the run on the concrete two-tournament listing. -/
theorem scrape_labs_events_sorted_witness :
    evA.Pairwise (fun a b => pairLe (sortKey b) (sortKey a)) ∧
    ∀ (i j : Fin evA.length),
      (evA.get i).date = none →
      (evA.get j).date.getD "" ≠ "" → (j : Nat) < (i : Nat) :=
  scrape_labs_events_sorted docA [] oracleA "PTCG" none ⟨evA, 6, 0⟩ rfl

/-! ## Uniqueness of composite ids -/

/-- Helper: a record found by the snapshot lookup carries the looked-up
id. -/
theorem lookupEvent_id {snapshot : List Event} {k : String} {e : Event}
    (h : lookupEvent snapshot k = some e) : e.id = k := by
  have := List.find?_some h
  simpa using this

/-- Helper: every record emitted for a tournament/division pair carries
the composite id of that pair, provided the cache lookup only answers
with records carrying the looked-up id. -/
theorem processPair_fst_id {existing : String → Option Event}
    (hex : ∀ k e, existing k = some e → e.id = k)
    (oracle : String → String → Option Nat) (game : String)
    (format : Option String) (tid name : String) (date : Option String)
    (division : String) :
    (processPair existing oracle game format tid name date division).1.id =
      tid ++ "_" ++ division := by
  unfold processPair
  rcases he : existing (tid ++ "_" ++ division) with _ | e
  · rfl
  · exact hex _ _ he

/-- Helper: the ids of the assembled records are the composite ids of
the listing. -/
theorem processAll_map_id {existing : String → Option Event}
    (hex : ∀ k e, existing k = some e → e.id = k)
    (oracle : String → String → Option Nat) (game : String)
    (format : Option String) :
    ∀ ts : List (String × String × Option String),
      (processAll existing oracle game format ts).map (fun p => p.1.id) =
        compositeIds ts
  | [] => rfl
  | (tid, name, date) :: rest => by
    simp only [processAll, compositeIds, List.map_append, List.map_map]
    rw [processAll_map_id hex oracle game format rest]
    congr 1
    apply List.map_congr_left
    intro d _
    exact processPair_fst_id hex oracle game format tid name date d

/-- Helper: composite ids with equal-length division parts decompose
uniquely. -/
theorem composite_inj {t1 t2 d1 d2 : String}
    (h : t1 ++ "_" ++ d1 = t2 ++ "_" ++ d2) (hlen : d1.length = d2.length) :
    t1 = t2 ∧ d1 = d2 := by
  have hdata : t1.data ++ ('_' :: d1.data) = t2.data ++ ('_' :: d2.data) := by
    have := congrArg String.data h
    simpa using this
  have hl : ('_' :: d1.data).length = ('_' :: d2.data).length := by
    simp only [List.length_cons]
    exact congrArg Nat.succ hlen
  obtain ⟨h1, h2⟩ := List.append_inj' hdata hl
  refine ⟨string_eq_of_data_eq h1, string_eq_of_data_eq ?_⟩
  injection h2

/-- Helper: membership in the composite-id list. -/
theorem mem_compositeIds {x : String} :
    ∀ {ts : List (String × String × Option String)}, x ∈ compositeIds ts →
      ∃ tr ∈ ts, ∃ d ∈ divisions, x = tr.1 ++ "_" ++ d
  | [], h => absurd h (by simp [compositeIds])
  | (tid, name, date) :: rest, h => by
    rcases List.mem_append.mp h with h1 | h2
    · obtain ⟨d, hd, hx⟩ := List.mem_map.mp h1
      exact ⟨(tid, name, date), List.mem_cons_self _ _, d, hd, hx.symm⟩
    · obtain ⟨tr, htr, d, hd, hx⟩ := mem_compositeIds h2
      exact ⟨tr, List.mem_cons_of_mem _ htr, d, hd, hx⟩

/-- Helper: all division codes have length 2. -/
theorem divisions_length : ∀ d ∈ divisions, d.length = 2 := by decide

/-- Helper: distinct tournament ids yield pairwise-distinct composite
ids. -/
theorem compositeIds_nodup :
    ∀ {ts : List (String × String × Option String)},
      (ts.map (fun x => x.1)).Nodup → (compositeIds ts).Nodup
  | [], _ => List.Pairwise.nil
  | (tid, name, date) :: rest, h => by
    rw [List.map_cons, List.nodup_cons] at h
    obtain ⟨hni, hrest⟩ := h
    rw [compositeIds, List.nodup_append]
    refine ⟨?_, compositeIds_nodup hrest, ?_⟩
    · simp only [divisions, List.map_cons, List.map_nil, List.nodup_cons,
        List.mem_cons, List.mem_singleton, List.not_mem_nil, not_or,
        List.nodup_nil, and_true, not_false_eq_true]
      refine ⟨⟨?_, ?_⟩, ?_⟩ <;>
        · intro hc
          obtain ⟨-, hd⟩ := composite_inj hc (by decide)
          exact absurd hd (by decide)
    · intro x hx hx2
      obtain ⟨d, hd, hxd⟩ := List.mem_map.mp hx
      obtain ⟨tr, htr, d2, hd2, hxd2⟩ := mem_compositeIds hx2
      rw [← hxd] at hxd2
      obtain ⟨ht, -⟩ := composite_inj hxd2
        ((divisions_length d hd).trans (divisions_length d2 hd2).symm)
      apply hni
      rw [ht]
      exact List.mem_map_of_mem (fun x => x.1) htr

/-- Helper: the first components of a zip form a prefix of the first
list. -/
theorem zip_map_fst_prefix_left {α β : Type} :
    ∀ (l1 : List α) (l2 : List β), ((l1.zip l2).map Prod.fst).IsPrefix l1
  | [], _ => by simp
  | _ :: _, [] => by simp
  | a :: as, b :: bs => by
    rw [List.zip_cons_cons, List.map_cons]
    obtain ⟨t, ht⟩ := zip_map_fst_prefix_left as bs
    exact ⟨t, by rw [List.cons_append, ht]⟩

/-- C9 (amended): provided the tournament ids extracted from the listing
are pairwise distinct, the `id` field is unique within the output array
of every successful orchestrator run, for every prior snapshot. -/
theorem scrape_labs_events_ids_unique (doc : NodeList) (snapshot : List Event)
    (oracle : String → String → Option Nat) (game : String)
    (format : Option String) (ids names : List String)
    (dates : List (Option String)) (out : ScrapeOutcome)
    (hx : extract_labs_list_items doc = .ok (ids, names, dates))
    (hnd : ids.Nodup)
    (h : scrape_labs_events doc snapshot oracle game format = .ok out) :
    (out.events.map (fun e => e.id)).Nodup := by
  unfold scrape_labs_events at h
  rw [hx] at h
  cases h
  have hfst : ((ids.zip (names.zip dates)).map (fun x => x.1)).Nodup :=
    hnd.sublist (zip_map_fst_prefix_left ids (names.zip dates)).sublist
  have hids :
      ((processAll (lookupEvent snapshot) oracle game format
          (ids.zip (names.zip dates))).map (fun p => p.1.id)) =
        compositeIds (ids.zip (names.zip dates)) :=
    processAll_map_id (fun _ _ he => lookupEvent_id he) oracle game format _
  have hperm :
      List.Perm
        ((sortEventsDesc ((processAll (lookupEvent snapshot) oracle game format
            (ids.zip (names.zip dates))).map (fun p => p.1))).map (fun e => e.id))
        (((processAll (lookupEvent snapshot) oracle game format
            (ids.zip (names.zip dates))).map (fun p => p.1)).map (fun e => e.id)) :=
    (sortEventsDesc_perm _).map _
  apply hperm.nodup_iff.mpr
  rw [List.map_map]
  exact hids ▸ compositeIds_nodup hfst

/-- C9 witness: the run on the two-tournament listing with distinct
ids. -/
theorem scrape_labs_events_ids_unique_witness :
    (evA.map (fun e => e.id)).Nodup :=
  scrape_labs_events_ids_unique docA [] oracleA "PTCG" none
    ["t1", "t2"] ["Event One", "Event Two"]
    [some "2025-07-12", some "2025-03-02"] ⟨evA, 6, 0⟩ rfl (by decide) rfl

/-- C9 (counterexample): a listing whose two items share the tournament
id `t1` produces an output array in which every composite id occurs
twice — the claim as stated fails without the distinctness proviso. -/
theorem scrape_labs_events_ids_unique_counterexample :
    (scrape_labs_events docDup [] oracleA "PTCG" none).map
        (fun o => o.events.map (fun e => e.id)) =
      .ok ["t1_SR", "t1_MA", "t1_JR", "t1_SR", "t1_MA", "t1_JR"] ∧
    ¬ (["t1_SR", "t1_MA", "t1_JR", "t1_SR", "t1_MA", "t1_JR"] :
        List String).Nodup := by
  constructor
  · rfl
  · decide

/-! ## Idempotence of cache reuse -/

/-- Helper: with pairwise-distinct ids, `find?` by id returns exactly
the member carrying that id. -/
theorem find_unique_id : ∀ {l : List Event} {k : String} {e : Event},
    (l.map (fun x => x.id)).Nodup → e ∈ l → e.id = k →
    l.find? (fun x => x.id = k) = some e
  | [], _, _, _, h, _ => absurd h (List.not_mem_nil _)
  | a :: rest, k, e, hnd, hmem, hid => by
    rw [List.map_cons, List.nodup_cons] at hnd
    obtain ⟨hni, hrest⟩ := hnd
    rcases List.mem_cons.mp hmem with rfl | hmem2
    · rw [List.find?_cons_of_pos _ (by simpa using hid)]
    · have hak : ¬ a.id = k := by
        intro hc
        apply hni
        rw [hc, ← hid]
        exact List.mem_map_of_mem (fun x => x.id) hmem2
      rw [List.find?_cons_of_neg _ (by simpa using hak)]
      exact find_unique_id hrest hmem2 hid

/-- Helper: with pairwise-distinct ids, the snapshot lookup of a
member's id returns that member unchanged. -/
theorem lookupEvent_of_nodup {l : List Event} {e : Event}
    (hnd : (l.map (fun x => x.id)).Nodup) (hmem : e ∈ l) :
    lookupEvent l (e.id) = some e := by
  unfold lookupEvent
  apply find_unique_id ?_ ?_ rfl
  · rw [List.map_reverse]
    exact List.nodup_reverse.mpr hnd
  · exact List.mem_reverse.mpr hmem

/-- Helper: the record assembled for a listed pair is among the
assembled records. -/
theorem processPair_fst_mem {existing : String → Option Event}
    {oracle : String → String → Option Nat} {game : String}
    {format : Option String} {t n : String} {dt : Option String} {d : String} :
    ∀ {ts : List (String × String × Option String)},
      (t, n, dt) ∈ ts → d ∈ divisions →
      (processPair existing oracle game format t n dt d).1 ∈
        (processAll existing oracle game format ts).map (fun p => p.1)
  | [], hts, _ => absurd hts (List.not_mem_nil _)
  | (t2, n2, dt2) :: rest, hts, hd => by
    simp only [processAll, List.map_append, List.mem_append]
    rcases List.mem_cons.mp hts with heq | hmem2
    · injection heq with h1 hrest
      injection hrest with h2 h3
      subst h1; subst h2; subst h3
      exact Or.inl (by
        rw [List.map_map]
        exact List.mem_map_of_mem _ hd)
    · exact Or.inr (processPair_fst_mem hmem2 hd)

/-- Helper: when every listed pair's composite id is answered by the
cache with the first run's record, the second pass reuses every record
with no fresh fetch. -/
theorem processAll_cached {ex1 ex2 : String → Option Event}
    {oracle oracle2 : String → String → Option Nat} {game : String}
    {format : Option String} :
    ∀ {ts : List (String × String × Option String)},
      (∀ t n dt d, (t, n, dt) ∈ ts → d ∈ divisions →
        ex2 (t ++ "_" ++ d) =
          some ((processPair ex1 oracle game format t n dt d).1)) →
      processAll ex2 oracle2 game format ts =
        (processAll ex1 oracle game format ts).map (fun p => (p.1, false))
  | [], _ => rfl
  | (t, n, dt) :: rest, hyp => by
    simp only [processAll, List.map_append, List.map_map]
    congr 1
    · apply List.map_congr_left
      intro d hd
      show processPair ex2 oracle2 game format t n dt d =
        ((processPair ex1 oracle game format t n dt d).1, false)
      unfold processPair
      rw [show ex2 (t ++ "_" ++ d) =
        some ((processPair ex1 oracle game format t n dt d).1) from
          hyp t n dt d (List.mem_cons_self _ _) hd]
      rfl
    · exact processAll_cached
        (fun t2 n2 dt2 d ht hd => hyp t2 n2 dt2 d (List.mem_cons_of_mem _ ht) hd)

/-- Helper: an all-cached pass has no fetched pair. -/
theorem filter_fetched_map_false (l : List (Event × Bool)) :
    (l.map (fun p => (p.1, false))).filter (fun p => p.2) = [] := by
  induction l with
  | nil => rfl
  | cons a rest ih => simpa using ih

/-- Helper: an all-cached pass counts every pair as cached. -/
theorem filter_cached_map_false (l : List (Event × Bool)) :
    ((l.map (fun p => (p.1, false))).filter (fun p => !p.2)).length = l.length := by
  induction l with
  | nil => rfl
  | cons a rest ih => simpa using ih

/-- Helper: the sort preserves length. -/
theorem sortEventsDesc_length (l : List Event) :
    (sortEventsDesc l).length = l.length :=
  (sortEventsDesc_perm l).length_eq

/-- C1 (amended): provided the listing's tournament ids are pairwise
distinct, running the orchestrator a second time against the same
listing document, the same standings oracle and the snapshot written by
the first run performs zero fresh count fetches, counts every emitted
record as a cache hit, and returns (hence persists) exactly the first
run's record array, each cached record passed through unmodified. -/
theorem scrape_labs_events_idempotent (doc : NodeList) (snapshot : List Event)
    (oracle : String → String → Option Nat) (game : String)
    (format : Option String) (ids names : List String)
    (dates : List (Option String)) (out1 out2 : ScrapeOutcome)
    (hx : extract_labs_list_items doc = .ok (ids, names, dates))
    (hnd : ids.Nodup)
    (h1 : scrape_labs_events doc snapshot oracle game format = .ok out1)
    (h2 : scrape_labs_events doc out1.events oracle game format = .ok out2) :
    out2.fetch_count = 0 ∧ out2.cached_count = out2.events.length ∧
      out2.events = out1.events := by
  unfold scrape_labs_events at h1 h2
  rw [hx] at h1 h2
  cases h1
  cases h2
  have hfst : (((ids.zip (names.zip dates)).map (fun x => x.1))).Nodup :=
    hnd.sublist (zip_map_fst_prefix_left ids (names.zip dates)).sublist
  have hids :
      ((processAll (lookupEvent snapshot) oracle game format
          (ids.zip (names.zip dates))).map (fun p => p.1.id)) =
        compositeIds (ids.zip (names.zip dates)) :=
    processAll_map_id (fun _ _ he => lookupEvent_id he) oracle game format _
  have hnodup1 :
      (((processAll (lookupEvent snapshot) oracle game format
          (ids.zip (names.zip dates))).map (fun p => p.1)).map
            (fun e => e.id)).Nodup := by
    rw [List.map_map]
    exact hids ▸ compositeIds_nodup hfst
  have hperm :
      List.Perm
        (sortEventsDesc ((processAll (lookupEvent snapshot) oracle game format
            (ids.zip (names.zip dates))).map (fun p => p.1)))
        ((processAll (lookupEvent snapshot) oracle game format
            (ids.zip (names.zip dates))).map (fun p => p.1)) :=
    sortEventsDesc_perm _
  have hnodup2 :
      ((sortEventsDesc ((processAll (lookupEvent snapshot) oracle game format
          (ids.zip (names.zip dates))).map (fun p => p.1))).map
            (fun e => e.id)).Nodup :=
    (hperm.map (fun e => e.id)).nodup_iff.mpr hnodup1
  have hcache : processAll
      (lookupEvent (sortEventsDesc ((processAll (lookupEvent snapshot) oracle
          game format (ids.zip (names.zip dates))).map (fun p => p.1))))
      oracle game format (ids.zip (names.zip dates)) =
      (processAll (lookupEvent snapshot) oracle game format
        (ids.zip (names.zip dates))).map (fun p => (p.1, false)) := by
    apply processAll_cached
    intro t n dt d hts hd
    have hmem :
        (processPair (lookupEvent snapshot) oracle game format t n dt d).1 ∈
          (processAll (lookupEvent snapshot) oracle game format
            (ids.zip (names.zip dates))).map (fun p => p.1) :=
      processPair_fst_mem hts hd
    have hmem2 :
        (processPair (lookupEvent snapshot) oracle game format t n dt d).1 ∈
          sortEventsDesc ((processAll (lookupEvent snapshot) oracle game format
            (ids.zip (names.zip dates))).map (fun p => p.1)) :=
      hperm.mem_iff.mpr hmem
    have hid :
        (processPair (lookupEvent snapshot) oracle game format t n dt d).1.id =
          t ++ "_" ++ d :=
      processPair_fst_id (fun _ _ he => lookupEvent_id he) oracle game format
        t n dt d
    rw [← hid]
    exact lookupEvent_of_nodup hnodup2 hmem2
  refine ⟨?_, ?_, ?_⟩
  · rw [hcache]
    simp [filter_fetched_map_false]
  · rw [hcache]
    simp [filter_cached_map_false, sortEventsDesc_length, List.map_map,
      Function.comp]
  · rw [hcache, List.map_map]
    rfl

/-- C1 witness: the second run over the concrete two-tournament listing
reuses all six records and reproduces the snapshot byte for byte. -/
theorem scrape_labs_events_idempotent_witness :
    (ScrapeOutcome.mk evA 0 6).fetch_count = 0 ∧
    (ScrapeOutcome.mk evA 0 6).cached_count =
      (ScrapeOutcome.mk evA 0 6).events.length ∧
    (ScrapeOutcome.mk evA 0 6).events = evA :=
  scrape_labs_events_idempotent docA [] oracleA "PTCG" none
    ["t1", "t2"] ["Event One", "Event Two"]
    [some "2025-07-12", some "2025-03-02"] ⟨evA, 6, 0⟩ ⟨evA, 0, 6⟩
    rfl (by decide) rfl rfl

/-- C1 (counterexample): with a listing whose two items share the
tournament id `t1` (different names), the second run still performs zero
fetches, but the snapshot it writes differs from the first run's — the
first run's two distinct records per composite id collapse onto the
last one, so the output is not byte-identical. -/
theorem scrape_labs_events_idempotent_counterexample :
    (scrape_labs_events docDup [] oracleA "PTCG" none).map
        (fun o => o.events.map (fun e => e.name)) =
      .ok ["Alpha (SR)", "Alpha (MA)", "Alpha (JR)",
           "Beta (SR)", "Beta (MA)", "Beta (JR)"] ∧
    ((scrape_labs_events docDup [] oracleA "PTCG" none).bind
        (fun o1 => (scrape_labs_events docDup o1.events oracleA "PTCG" none).map
          (fun o2 => (o2.fetch_count, o2.events.map (fun e => e.name))))) =
      .ok (0, ["Beta (SR)", "Beta (SR)", "Beta (MA)",
               "Beta (MA)", "Beta (JR)", "Beta (JR)"]) := by
  constructor
  · rfl
  · rfl

/-! ## Malformed date fields yield null (C3) -/

/-- Helper: `pyFindAux` either reports absence or returns the index of
an occurrence. -/
theorem pyFindAux_spec (c : Char) : ∀ l : List Char,
    (pyFindAux c l = -1 ∧ c ∉ l) ∨
    (∃ n : Nat, pyFindAux c l = (n : Int) ∧ l.get? n = some c)
  | [] => Or.inl ⟨rfl, List.not_mem_nil c⟩
  | a :: as => by
    by_cases hac : a = c
    · refine Or.inr ⟨0, ?_, ?_⟩
      · simp [pyFindAux, hac]
      · simp [hac]
    · rcases pyFindAux_spec c as with ⟨h1, h2⟩ | ⟨n, hn, hg⟩
      · refine Or.inl ⟨?_, ?_⟩
        · simp [pyFindAux, hac, h1]
        · simp only [List.mem_cons, not_or]
          exact ⟨fun hc => hac hc.symm, h2⟩
      · refine Or.inr ⟨n + 1, ?_, by simpa using hg⟩
        simp only [pyFindAux, hac, if_false, hn]
        have : ¬ ((n : Int) < 0) := by omega
        simp only [this, if_false, if_neg]
        push_cast
        ring

/-- Helper: lowercasing never produces or destroys a comma. -/
theorem lowerA_eq_comma_iff {c : Char} : lowerA c = ',' ↔ c = ',' := by
  unfold lowerA
  rcases hf : upperLower.find? (fun p => p.1 = c) with _ | p
  · rw [hf]
  · rw [hf]
    show p.2 = ',' ↔ c = ','
    have hmem := List.mem_of_find?_eq_some hf
    have hpc : p.1 = c := by simpa using List.find?_some hf
    have hall : ∀ q ∈ upperLower, ¬ q.2 = ',' ∧ ¬ q.1 = ',' := by decide
    constructor
    · intro hcomma
      exact absurd hcomma (hall p hmem).1
    · intro hcomma
      exact absurd (hpc.trans hcomma) (hall p hmem).2

/-- Helper: `lowerA` commutes with the comma test. -/
theorem lowerA_comma_beq (x : Char) : (lowerA x == ',') = (x == ',') := by
  by_cases hx : x = ','
  · subst hx
    rfl
  · have h2 : ¬ lowerA x = ',' := fun hc => hx (lowerA_eq_comma_iff.mp hc)
    simp [hx, h2]

/-- Helper: lowercasing preserves the comma count. -/
theorem count_comma_map_lowerA (l : List Char) :
    (l.map lowerA).count ',' = l.count ',' := by
  simp only [List.count, List.countP_map]
  apply List.countP_congr
  intro x _
  simp only [Function.comp_apply]
  rw [lowerA_comma_beq]

/-- Helper: a comma inside the lowercased list comes from a comma. -/
theorem comma_mem_of_map_lowerA {l : List Char} (h : ',' ∈ l.map lowerA) :
    ',' ∈ l := by
  obtain ⟨a, ha, hla⟩ := List.mem_map.mp h
  exact (lowerA_eq_comma_iff.mp hla) ▸ ha

/-- Helper: no month name contains a comma. -/
theorem monthNames_no_comma : ∀ p ∈ monthNames, ',' ∉ p.1.data := by decide

/-- Helper: a successful month match splits off a comma-free prefix. -/
theorem matchMonth_decomp {cs r : List Char} {m : Nat}
    (h : matchMonth cs = some (m, r)) : ∃ pm, cs = pm ++ r ∧ ',' ∉ pm := by
  obtain ⟨p, hp, hsome⟩ := List.exists_of_findSome?_eq_some h
  by_cases hpre : p.1.data.isPrefixOf cs
  · rw [if_pos hpre] at hsome
    injection hsome with hsome
    have hr : r = cs.drop p.1.data.length := (congrArg Prod.snd hsome).symm
    obtain ⟨t, ht⟩ := List.isPrefixOf_iff_prefix.mp hpre
    refine ⟨p.1.data, ?_, monthNames_no_comma p hp⟩
    rw [hr, ← ht, List.drop_left]
  · rw [if_neg hpre] at hsome
    exact absurd hsome (by simp)

/-- Helper: whitespace characters are not commas. -/
theorem pyIsSpace_ne_comma {c : Char} (h : pyIsSpace c = true) : c ≠ ',' := by
  intro hc
  subst hc
  exact absurd h (by decide)

/-- Helper: a whitespace-consuming step splits off a comma-free
prefix. -/
theorem wsSplits_decomp {r1 r2 : List Char} (h : r2 ∈ wsSplits r1) :
    ∃ pw, r1 = pw ++ r2 ∧ ',' ∉ pw := by
  obtain ⟨i, hi, hdrop⟩ := List.mem_map.mp h
  have hik : i < leadingWs r1 := List.mem_range.mp hi
  set j := leadingWs r1 - i with hj
  have hjk : j ≤ (r1.takeWhile pyIsSpace).length := by
    simp only [hj, leadingWs]
    omega
  refine ⟨r1.take j, ?_, ?_⟩
  · rw [← hdrop]
    exact (List.take_append_drop j r1).symm
  · intro hcm
    have htake : r1.take j = (r1.takeWhile pyIsSpace).take j := by
      conv_lhs => rw [← List.takeWhile_append_dropWhile pyIsSpace r1]
      rw [List.take_append_of_le_length hjk]
    rw [htake] at hcm
    have hmem : ',' ∈ r1.takeWhile pyIsSpace := List.take_subset _ _ hcm
    exact pyIsSpace_ne_comma (List.mem_takeWhile_imp hmem) rfl

/-- Helper: digits are not commas. -/
theorem isDigitC_ne_comma {c : Char} (h : isDigitC c = true) : c ≠ ',' := by
  intro hc
  subst hc
  exact absurd h (by decide)

/-- Helper: characters at least `'1'` are not commas. -/
theorem one_le_ne_comma {c : Char} (h : '1' ≤ c) : c ≠ ',' := by
  intro hc
  subst hc
  exact absurd h (by decide)

/-- Helper: a successful day match splits off a nonempty comma-free
prefix. -/
theorem dayAlts_decomp {dv : Nat} {r2 r3 : List Char}
    (h : (dv, r3) ∈ dayAlts r2) : ∃ pd, r2 = pd ++ r3 ∧ ',' ∉ pd := by
  rcases r2 with _ | ⟨a, _ | ⟨b, r⟩⟩
  · simp [dayAlts] at h
  · simp only [dayAlts, List.append_nil, List.nil_append] at h
    split at h
    · rename_i hcond
      simp only [List.mem_singleton, Prod.mk.injEq] at h
      refine ⟨[a], by simp [h.2], ?_⟩
      intro hcm
      simp only [List.mem_cons, List.not_mem_nil, or_false] at hcm
      subst hcm
      exact one_le_ne_comma hcond.1 rfl
    · exact absurd h (List.not_mem_nil _)
  · simp only [dayAlts] at h
    rcases List.mem_append.mp h with h | h5
    on_goal 1 => rcases List.mem_append.mp h with h | h4
    on_goal 1 => rcases List.mem_append.mp h with h | h3
    on_goal 1 => rcases List.mem_append.mp h with h1 | h2
    · split at h1
      · rename_i ha
        subst ha
        split at h1
        · rename_i hb
          subst hb
          simp only [List.mem_singleton, Prod.mk.injEq] at h1
          exact ⟨['3', '0'], by simp [h1.2], by decide⟩
        · split at h1
          · rename_i hb
            subst hb
            simp only [List.mem_singleton, Prod.mk.injEq] at h1
            exact ⟨['3', '1'], by simp [h1.2], by decide⟩
          · exact absurd h1 (List.not_mem_nil _)
      · exact absurd h1 (List.not_mem_nil _)
    · split at h2
      · rename_i hcond
        simp only [List.mem_singleton, Prod.mk.injEq] at h2
        refine ⟨[a, b], by simp [h2.2], ?_⟩
        intro hcm
        simp only [List.mem_cons, List.not_mem_nil, or_false] at hcm
        rcases hcm with hc | hc
        · subst hc
          rcases hcond.1 with hc2 | hc2 <;> exact absurd hc2 (by decide)
        · subst hc
          exact absurd hcond.2 (by decide)
      · exact absurd h2 (List.not_mem_nil _)
    · split at h3
      · rename_i hcond
        simp only [List.mem_singleton, Prod.mk.injEq] at h3
        refine ⟨[a, b], by simp [h3.2], ?_⟩
        intro hcm
        simp only [List.mem_cons, List.not_mem_nil, or_false] at hcm
        rcases hcm with hc | hc
        · subst hc
          exact absurd hcond.1 (by decide)
        · subst hc
          exact absurd hcond.2.1 (by decide)
      · exact absurd h3 (List.not_mem_nil _)
    · split at h4
      · rename_i hcond
        simp only [List.mem_singleton, Prod.mk.injEq] at h4
        refine ⟨[a], by simp [h4.2], ?_⟩
        intro hcm
        simp only [List.mem_cons, List.not_mem_nil, or_false] at hcm
        subst hcm
        exact absurd hcond.1 (by decide)
      · exact absurd h4 (List.not_mem_nil _)
    · split at h5
      · rename_i hcond
        simp only [List.mem_singleton, Prod.mk.injEq] at h5
        refine ⟨[a, b], by simp [h5.2], ?_⟩
        intro hcm
        simp only [List.mem_cons, List.not_mem_nil, or_false] at hcm
        rcases hcm with hc | hc
        · subst hc
          exact absurd hcond.1 (by decide)
        · subst hc
          exact absurd hcond.2.1 (by decide)
      · exact absurd h5 (List.not_mem_nil _)

/-- Helper: a successful tail match means a comma followed by a
comma-free remainder ending in a digit. -/
theorem matchTail_decomp {r3 : List Char} {y : Nat} (h : matchTail r3 = some y) :
    ∃ rest, r3 = ',' :: rest ∧ ',' ∉ rest ∧
      ∃ pre4 c, rest = pre4 ++ [c] ∧ isDigitC c = true := by
  rcases r3 with _ | ⟨c0, rest⟩
  · exact absurd h (by simp [matchTail])
  · simp only [matchTail] at h
    split at h
    · rename_i hc0
      subst hc0
      obtain ⟨r4, hr4, hsome⟩ := List.exists_of_findSome?_eq_some h
      rcases r4 with _ | ⟨c1, _ | ⟨c2, _ | ⟨c3, _ | ⟨c4, _ | ⟨c5, rr⟩⟩⟩⟩⟩
      · exact absurd hsome (by simp)
      · exact absurd hsome (by simp)
      · exact absurd hsome (by simp)
      · exact absurd hsome (by simp)
      on_goal 2 => exact absurd hsome (by simp)
      dsimp only [] at hsome
      split at hsome
      · rename_i hdig
        obtain ⟨pw, hpw, hpwnc⟩ := wsSplits_decomp hr4
        refine ⟨rest, rfl, ?_, pw ++ [c1, c2, c3], c4, ?_, hdig.2.2.2⟩
        · intro hcm
          rw [hpw] at hcm
          rcases List.mem_append.mp hcm with hm | hm
          · exact hpwnc hm
          · simp only [List.mem_cons, List.not_mem_nil, or_false] at hm
            rcases hm with hm | hm | hm | hm
            · exact isDigitC_ne_comma hdig.1 hm.symm
            · exact isDigitC_ne_comma hdig.2.1 hm.symm
            · exact isDigitC_ne_comma hdig.2.2.1 hm.symm
            · exact isDigitC_ne_comma hdig.2.2.2 hm.symm
        · rw [hpw, List.append_assoc]
          rfl
      · exact absurd hsome (by simp)
    · exact absurd h (by simp)

/-- Helper: inversion of a successful `strptime`: the lowercased input
splits around a single comma, with a digit as its very last
character. -/
theorem strptimeBdY_decomp {s : String} {v : Nat × Nat × Nat}
    (h : strptimeBdY s = some v) :
    ∃ pre rest, s.data.map lowerA = pre ++ ',' :: rest ∧ ',' ∉ pre ∧
      ',' ∉ rest ∧ ∃ pre4 c, rest = pre4 ++ [c] ∧ isDigitC c = true := by
  simp only [strptimeBdY] at h
  rcases hm : matchMonth (s.data.map lowerA) with _ | p
  · rw [hm] at h
    exact absurd h (by simp)
  · obtain ⟨m, r1⟩ := p
    rw [hm] at h
    dsimp only [] at h
    rcases hf : (wsSplits r1).findSome? (fun r2 =>
        (dayAlts r2).findSome? (fun p =>
          (matchTail p.2).map (fun y => (y, p.1)))) with _ | yd
    · rw [hf] at h
      exact absurd h (by simp)
    · obtain ⟨r2, hr2, hG⟩ := List.exists_of_findSome?_eq_some hf
      obtain ⟨⟨dvv, r3⟩, hday, hT⟩ := List.exists_of_findSome?_eq_some hG
      have hT2 : (matchTail r3).map (fun y => (y, dvv)) = some yd := hT
      obtain ⟨y2, hmt, -⟩ := Option.map_eq_some'.mp hT2
      obtain ⟨pm, hpm, hpmnc⟩ := matchMonth_decomp hm
      obtain ⟨pw, hpw, hpwnc⟩ := wsSplits_decomp hr2
      obtain ⟨pd, hpd, hpdnc⟩ := dayAlts_decomp hday
      obtain ⟨rest, hrest, hrestnc, pre4, c, hp4, hdig⟩ := matchTail_decomp hmt
      refine ⟨pm ++ pw ++ pd, rest, ?_, ?_, hrestnc, pre4, c, hp4, hdig⟩
      · rw [hpm, hpw, hpd, hrest]
        simp [List.append_assoc]
      · intro hcm
        simp only [List.mem_append] at hcm
        rcases hcm with (hcm | hcm) | hcm
        · exact hpmnc hcm
        · exact hpwnc hcm
        · exact hpdnc hcm

/-- Helper: a one-comma decomposition has comma count 1. -/
theorem count_one_of_decomp {pre rest : List Char} (h1 : ',' ∉ pre)
    (h2 : ',' ∉ rest) : (pre ++ ',' :: rest).count ',' = 1 := by
  rw [List.count_append, List.count_cons,
    List.count_eq_zero_of_not_mem h1, List.count_eq_zero_of_not_mem h2]
  simp

/-- Helper: a `[:i]` slice only contains characters of the string. -/
theorem pySliceTo_subset (s : String) (i : Int) :
    (pySliceTo s i).data ⊆ s.data := by
  unfold pySliceTo
  split <;> exact List.take_subset _ _

/-- Helper: an `[i:]` slice only contains characters of the string. -/
theorem pySliceFrom_subset (s : String) (i : Int) :
    (pySliceFrom s i).data ⊆ s.data := by
  unfold pySliceFrom
  split <;> exact List.drop_subset _ _

/-- Helper: the characters of the spliced date string. -/
theorem splice_date_data (s : String) :
    (splice_date s).data =
      (pySliceTo s (pyFind s '–')).data ++ (pySliceFrom s (pyFind s ',')).data := by
  simp [splice_date]

/-- Helper: `s[:-1]` drops the last character. -/
theorem pySliceTo_neg_one (s : String) :
    (pySliceTo s (-1)).data = s.data.take (s.data.length - 1) := by
  unfold pySliceTo
  rw [if_pos (by norm_num)]
  norm_num

/-- Helper: `s[n:]` for a nonnegative index drops `n` characters. -/
theorem pySliceFrom_nat (s : String) (n : Nat) :
    (pySliceFrom s (n : Int)).data = s.data.drop n := by
  unfold pySliceFrom
  rw [if_neg (by omega)]
  simp

/-- Helper: without a comma in the input, the spliced string cannot
parse (the format demands a literal comma). -/
theorem strptimeBdY_none_of_no_comma {s : String} (hnc : ',' ∉ s.data) :
    strptimeBdY (splice_date s) = none := by
  rcases hv : strptimeBdY (splice_date s) with _ | v
  · rfl
  · exfalso
    obtain ⟨pre, rest, hM, -, -, -⟩ := strptimeBdY_decomp hv
    have hmem : ',' ∈ (splice_date s).data.map lowerA := by
      rw [hM]
      simp
    have h2 : ',' ∈ (splice_date s).data := comma_mem_of_map_lowerA hmem
    rw [splice_date_data] at h2
    rcases List.mem_append.mp h2 with h3 | h3
    · exact hnc (pySliceTo_subset s _ h3)
    · exact hnc (pySliceFrom_subset s _ h3)

/-- Helper: without an en-dash in the input (but with a comma), the
splice `s[:-1] + s[comma:]` either contains two commas or ends in the
comma, and the parse fails either way. -/
theorem strptimeBdY_none_of_no_dash {s : String} (hnd : '–' ∉ s.data)
    (hc : ',' ∈ s.data) : strptimeBdY (splice_date s) = none := by
  have hdash : pyFind s '–' = -1 := by
    rcases pyFindAux_spec '–' s.data with ⟨h1, _⟩ | ⟨n, hn, hg⟩
    · exact h1
    · exact absurd (List.get?_mem hg) hnd
  obtain ⟨n, hfind, hget⟩ :
      ∃ n : Nat, pyFind s ',' = (n : Int) ∧ s.data.get? n = some ',' := by
    rcases pyFindAux_spec ',' s.data with ⟨-, h2⟩ | ⟨n, hn, hg⟩
    · exact absurd hc h2
    · exact ⟨n, hn, hg⟩
  have hlen : n < s.data.length := by
    rcases List.get?_eq_some.mp hget with ⟨hlt, -⟩
    exact hlt
  have hgetn : s.data.get ⟨n, hlen⟩ = ',' := by
    rcases List.get?_eq_some.mp hget with ⟨h', hh⟩
    exact hh
  have hsplice : (splice_date s).data =
      s.data.take (s.data.length - 1) ++ s.data.drop n := by
    rw [splice_date_data, hdash, hfind, pySliceTo_neg_one, pySliceFrom_nat]
  rcases hv : strptimeBdY (splice_date s) with _ | v
  · rfl
  exfalso
  obtain ⟨pre, rest, hM, hprenc, hrestnc, pre4, c, hp4, hdig⟩ :=
    strptimeBdY_decomp hv
  have hcount1 : ((splice_date s).data).count ',' = 1 := by
    have hcm := count_one_of_decomp hprenc hrestnc
    rw [← hM, count_comma_map_lowerA] at hcm
    exact hcm
  by_cases hn1 : n < s.data.length - 1
  · have hc1 : ',' ∈ s.data.take (s.data.length - 1) := by
      have e : (s.data.take (s.data.length - 1)).get? n = some ',' := by
        rw [List.get?_take hn1]
        exact hget
      exact List.get?_mem e
    have hc2 : ',' ∈ s.data.drop n := by
      rw [List.drop_eq_get_cons hlen, hgetn]
      exact List.mem_cons_self _ _
    have e1 : 0 < (s.data.take (s.data.length - 1)).count ',' :=
      List.count_pos_iff.mpr hc1
    have e2 : 0 < (s.data.drop n).count ',' := List.count_pos_iff.mpr hc2
    rw [hsplice, List.count_append] at hcount1
    omega
  · have hdrop : s.data.drop n = [','] := by
      rw [List.drop_eq_get_cons hlen, hgetn,
        List.drop_eq_nil_of_le (by omega)]
    have hM2 : (splice_date s).data.map lowerA =
        (s.data.take (s.data.length - 1)).map lowerA ++ [','] := by
      rw [hsplice, hdrop, List.map_append]
      rfl
    have hlast1 : ((splice_date s).data.map lowerA).getLast? = some ',' := by
      rw [hM2]
      exact List.getLast?_concat _
    have hlast2 : ((splice_date s).data.map lowerA).getLast? = some c := by
      rw [hM, hp4, show pre ++ ',' :: (pre4 ++ [c]) = (pre ++ ',' :: pre4) ++ [c] by
        simp [List.append_assoc]]
      exact List.getLast?_concat _
    rw [hlast1] at hlast2
    injection hlast2 with hcc
    rw [← hcc] at hdig
    exact absurd hdig (by decide)

/-- C3: a listing-item date field that contains no comma, or no en-dash
(in particular any field that fails the `Month Day, Year` parse after
the splice), is recorded as a null date; the normalization step is total
in the embedding — the `except` of the source absorbs every parse
failure, and no exception escapes. -/
theorem normalize_date_malformed (text2 : String)
    (h : (',' ∉ text2.data) ∨ ('–' ∉ text2.data)) :
    normalize_date (some text2) = none := by
  have hs : strptimeBdY (splice_date text2) = none := by
    rcases h with hnc | hnd
    · exact strptimeBdY_none_of_no_comma hnc
    · by_cases hcmem : ',' ∈ text2.data
      · exact strptimeBdY_none_of_no_dash hnd hcmem
      · exact strptimeBdY_none_of_no_comma hcmem
  show (if text2.isEmpty then none else parse_date text2) = none
  split
  · rfl
  · unfold parse_date
    rw [hs]
    rfl

/-- C3 witness: a dash-free comma-free field and a comma-bearing
dash-free field both normalize to a null date. -/
theorem normalize_date_malformed_witness :
    normalize_date (some "July 12 to 14 2025") = none ∧
    normalize_date (some "July 12, 2025") = none :=
  ⟨normalize_date_malformed _ (Or.inl (by decide)),
   normalize_date_malformed _ (Or.inr (by decide))⟩

end ThHelpers
